import Mathlib

/-!
Verification of the hair-type image-collection pipeline
(`datacollection/serpapi/serpapi_call.py` and `datacollection/yolo/yolo.py`).

The development shallowly embeds the two scripts:

* `Scraper` models `HairTypeImageScraperV2` (search, download, hash
  deduplication, and the per-category collection driver
  `collect_images_for_type`).  External effects (the SerpAPI response, the
  HTTP response for each URL) enter through oracles; the filesystem is an
  association list from filename to byte content.  Ghost logs (`dlLog`,
  `keptLog`, `writeLog`) record the downloader invocations, the files kept
  by the run, and the file writes, in chronological order.

* `Yolo` models `PersonDetectorFilter` (per-image person counting,
  per-category filtering with copy-to-output, aggregate statistics and the
  single `save_statistics` call at the end of `filter_all`).  The detector
  is an oracle attached to each image: `none` models an exception raised by
  the model, `some results` the list of per-result box lists.

Both scripts build filenames with Python's `f"{name}_{index:05d}.jpg"`;
`fname` below models that formatting (decimal rendering, zero-padded to
width 5) and is proved injective in the index.
-/

namespace Pipeline

/-! ### Decimal rendering and the `{category}_{index:05d}.jpg` filename -/

/-- The character for a single decimal digit `d` (`d < 10`). -/
def digitChar (d : Nat) : Char := Char.ofNat (48 + d)

/-- Decimal digits of `n`, most significant first, computed with explicit
fuel so that the definition is structurally recursive (the fuel `n + 1`
always suffices). -/
def natDigits : Nat → Nat → List Char
  | 0, _ => []
  | fuel + 1, n =>
    if n < 10 then [digitChar n]
    else natDigits fuel (n / 10) ++ [digitChar (n % 10)]

/-- Python's `"{:05d}".format n`: the decimal rendering of `n`, left-padded
with `'0'` to at least five characters. -/
def pad5 (n : Nat) : List Char :=
  let s := natDigits (n + 1) n
  List.replicate (5 - s.length) '0' ++ s

/-- The extension `".jpg"` as characters. -/
def jpgExt : List Char := ['.', 'j', 'p', 'g']

/-- `f"{hair_type}_{file_index:05d}.jpg"`, the filename format used both by
the scraper (`collect_images_for_type`) and by the detection filter
(`filter_hair_type_folder`). -/
def fname (ht : String) (i : Nat) : String :=
  ⟨ht.data ++ '_' :: (pad5 i ++ jpgExt)⟩

/-- Value of a digit character. -/
def charVal (c : Char) : Nat := c.toNat - 48

/-- The number denoted by a list of decimal digit characters. -/
def digitsVal (cs : List Char) : Nat :=
  cs.foldl (fun a c => a * 10 + charVal c) 0

/-! ### Filename extension tests (the `*.jpg` / `*.jpeg` / `*.png` globs) -/

/-- `suf` is a suffix of `s` (both as character lists). -/
def endsWith (s suf : List Char) : Bool :=
  List.isPrefixOf suf.reverse s.reverse

/-- Whether a filename matches one of the image globs `*.jpg`, `*.jpeg`,
`*.png` used both by `collect_images_for_type` (to count existing images)
and by `filter_hair_type_folder` (to list the images to process). -/
def isImageFile (n : String) : Bool :=
  endsWith n.data ".jpg".data || endsWith n.data ".jpeg".data ||
    endsWith n.data ".png".data

/-! ### The scraper (`HairTypeImageScraperV2`, `serpapi_call.py`) -/

namespace Scraper

/-- An image URL. -/
abbrev Url := String

/-- File content as a byte list. -/
abbrev Content := List Nat

/-- A content hash (the hex digest of `hashlib.md5`).  `get_image_hash` is
modelled by an arbitrary function `Content → Hash` in the environment:
identical bytes always produce identical digests, which is the only
property the scripts rely on. -/
abbrev Hash := String

/-- One entry of the `images_results` list of a SerpAPI response: a result
object that optionally carries an `"original"` URL field. -/
structure ImageResult where
  original : Option Url

/-- A SerpAPI response: it optionally contains an `images_results` list. -/
structure SearchResponse where
  images_results : Option (List ImageResult)

/-- `search_images` (lines 316-347): the response, or the exception raised
while obtaining it, comes in as an `Except`; on an exception or a response
without `images_results` the result is `[]`, otherwise the `"original"`
fields of the result objects, in order. -/
def search_images (resp : Except String SearchResponse) : List Url :=
  match resp with
  | .error _ => []
  | .ok r =>
    match r.images_results with
    | none => []
    | some imgs => imgs.filterMap (fun i => i.original)

/-- Outcome of the HTTP GET performed by `download_image` for one URL:
either the request (or `raise_for_status`) raises, or a response arrives
with a content type and a stream of chunks; `streamOk = false` means the
body stream raises after the chunks in `written` have been written. -/
inductive DlOutcome where
  | netError
  | response (contentType : String) (written : List Content) (streamOk : Bool)

/-- `'image' in content_type` (line 359). -/
def isImageContentType (ct : String) : Bool :=
  hasInfix "image".data ct.data
where
  /-- Python's substring test `needle in hay`. -/
  hasInfix (needle : List Char) : List Char → Bool
    | [] => needle.isEmpty
    | c :: rest => needle.isPrefixOf (c :: rest) || hasInfix needle rest

/-- `download_image` (lines 349-369).  Returns the boolean result together
with the effect on the target path: `none` means the path is untouched,
`some c` means the file now holds content `c`.  A network error or a
non-image content type yields `False` without touching the path (the file
is only opened after the content-type check); a stream failure leaves the
partially written file in place and yields `False`. -/
def download_image (o : DlOutcome) : Bool × Option Content :=
  match o with
  | .netError => (false, none)
  | .response ct written ok =>
    if isImageContentType ct then
      if ok then (true, some written.flatten) else (false, some written.flatten)
    else (false, none)

/-- The oracles and parameters of one `collect_images_for_type` run:
the category, the target count, the search results per (query index, page),
the HTTP outcome per URL, and the md5 digest function. -/
structure Env where
  hairType : String
  target : Nat
  searchO : Nat → Nat → List Url
  downloadO : Url → DlOutcome
  hashFn : Content → Hash

/-- The per-category directory, an association list from filename to
content (most recent entry first). -/
abbrev Fs := List (String × Content)

/-- Read a file. -/
def fsGet (fs : Fs) (n : String) : Option Content :=
  (fs.find? (fun p => p.1 == n)).map (fun p => p.2)

/-- `open(path, 'wb')` followed by writing `c`: replaces any previous
content at `n`. -/
def fsWrite (fs : Fs) (n : String) (c : Content) : Fs :=
  (n, c) :: fs.filter (fun p => p.1 != n)

/-- `filepath.unlink()`. -/
def fsUnlink (fs : Fs) (n : String) : Fs :=
  fs.filter (fun p => p.1 != n)

/-- The state threaded through `collect_images_for_type`, plus ghost logs:
`dlLog` records every `download_image` invocation, `keptLog` every file the
run kept (counted in `downloaded`), `writeLog` every filename written. -/
structure CState where
  downloaded : Nat
  api_calls : Nat
  seen_hashes : List Hash
  seen_urls : List Url
  fs : Fs
  dlLog : List Url
  keptLog : List (String × Content)
  writeLog : List String

/-- The body of `for url in new_urls` (lines 433-461): record the URL as
seen, build `f"{hair_type}_{start_index + downloaded:05d}.jpg"`, call the
downloader, and on success hash the written file, dropping it if the hash
was already seen and keeping it (recording the hash and incrementing
`downloaded`) otherwise.  (`get_image_hash` reads back the file that
`download_image` just wrote, so it hashes exactly the downloaded bytes.) -/
def processUrl (env : Env) (si : Nat) (st : CState) (url : Url) : CState :=
  let filename := fname env.hairType (si + st.downloaded)
  match download_image (env.downloadO url) with
  | (false, none) =>
    { st with seen_urls := url :: st.seen_urls, dlLog := st.dlLog ++ [url] }
  | (false, some c) =>
    { st with seen_urls := url :: st.seen_urls, dlLog := st.dlLog ++ [url],
              fs := fsWrite st.fs filename c,
              writeLog := st.writeLog ++ [filename] }
  | (true, none) =>
    -- not produced by `download_image`
    { st with seen_urls := url :: st.seen_urls, dlLog := st.dlLog ++ [url] }
  | (true, some c) =>
    if env.hashFn c ∈ st.seen_hashes then
      { st with seen_urls := url :: st.seen_urls, dlLog := st.dlLog ++ [url],
                fs := fsUnlink (fsWrite st.fs filename c) filename,
                writeLog := st.writeLog ++ [filename] }
    else
      { st with seen_urls := url :: st.seen_urls, dlLog := st.dlLog ++ [url],
                fs := fsWrite st.fs filename c,
                writeLog := st.writeLog ++ [filename],
                seen_hashes := env.hashFn c :: st.seen_hashes,
                downloaded := st.downloaded + 1,
                keptLog := st.keptLog ++ [(filename, c)] }

/-- The `for url in new_urls` loop with its `if downloaded >= target_count:
break` at the top of each iteration. -/
def processUrls (env : Env) (si : Nat) (st : CState) : List Url → CState
  | [] => st
  | u :: rest =>
    if env.target ≤ st.downloaded then st
    else processUrls env si (processUrl env si st u) rest

/-- One page (lines 421-431): call `search_images`, count the API call,
`continue` on an empty result, otherwise filter out already-seen URLs and
run the URL loop. -/
def processPage (env : Env) (si : Nat) (st : CState) (qIdx page : Nat) : CState :=
  let image_urls := env.searchO qIdx page
  let st1 := { st with api_calls := st.api_calls + 1 }
  if image_urls.isEmpty then st1
  else
    let new_urls := image_urls.filter (fun u => !(decide (u ∈ st1.seen_urls)))
    processUrls env si st1 new_urls

/-- The `for page in [0, 1]` loop with its top-of-iteration break. -/
def runPages (env : Env) (si : Nat) (qIdx : Nat) (st : CState) : List Nat → CState
  | [] => st
  | p :: rest =>
    if env.target ≤ st.downloaded then st
    else runPages env si qIdx (processPage env si st qIdx p) rest

/-- The `for query_idx, query in enumerate(queries)` loop with its
top-of-iteration break; queries are identified by their index. -/
def runQueries (env : Env) (si : Nat) (st : CState) : List Nat → CState
  | [] => st
  | q :: rest =>
    if env.target ≤ st.downloaded then st
    else runQueries env si (runPages env si q st [0, 1]) rest

/-- The state at the start of a run: zero counters, empty seen sets, empty
ghost logs, and the pre-existing directory. -/
def initState (fs0 : Fs) : CState :=
  { downloaded := 0, api_calls := 0, seen_hashes := [], seen_urls := [],
    fs := fs0, dlLog := [], keptLog := [], writeLog := [] }

/-- `start_index = len(existing_images)` (lines 392-396): the number of
pre-existing files matching the `*.jpg` / `*.jpeg` / `*.png` globs. -/
def countImages (fs0 : Fs) : Nat :=
  (fs0.filter (fun p => isImageFile p.1)).length

/-- `collect_images_for_type` (lines 376-469) for a category with
`numQueries` query variations, starting from the directory `fs0`. -/
def collect_images_for_type (env : Env) (numQueries : Nat) (fs0 : Fs) : CState :=
  runQueries env (countImages fs0) (initState fs0) (List.range numQueries)

/-- Invariant for claim C8: the downloader log has no repeats, and every
URL handed to the downloader has been recorded in `seen_urls`. -/
def UrlInv (st : CState) : Prop :=
  st.dlLog.Nodup ∧ ∀ u ∈ st.dlLog, u ∈ st.seen_urls

/-- Invariant for claim C2: the kept files carry pairwise distinct hashes,
all of them recorded in `seen_hashes`. -/
def KeptInv (env : Env) (st : CState) : Prop :=
  (st.keptLog.map (fun p => env.hashFn p.2)).Nodup ∧
  ∀ p ∈ st.keptLog, env.hashFn p.2 ∈ st.seen_hashes

/-- Invariant for claim C3: the kept files are named
`fname ht (start_index + 0), fname ht (start_index + 1), …` in order, and
every filename ever written has an index `≥ start_index`. -/
def NameInv (env : Env) (si : Nat) (st : CState) : Prop :=
  (st.keptLog.map Prod.fst =
    (List.range st.downloaded).map (fun k => fname env.hairType (si + k))) ∧
  ∀ nm ∈ st.writeLog, ∃ i, si ≤ i ∧ nm = fname env.hairType i

/-- A simple digest function for concrete runs. -/
def mdigest (c : Content) : Hash := ⟨c.map (fun b => digitChar (b % 10))⟩

/-- Concrete environment exercising claim C2: one query whose first page
returns two distinct URLs whose downloads have identical bytes. -/
def hashDupEnv : Env :=
  { hairType := "2b", target := 5,
    searchO := fun i p => if i = 0 ∧ p = 0 then ["u", "v"] else [],
    downloadO := fun _ => .response "image/jpeg" [[7]] true,
    hashFn := mdigest }

/-- Concrete environment exercising claim C3: one query returning one URL
that downloads successfully. -/
def seqEnv : Env :=
  { hairType := "2b", target := 5,
    searchO := fun i p => if i = 0 ∧ p = 0 then ["u"] else [],
    downloadO := fun _ => .response "image/jpeg" [[7]] true,
    hashFn := mdigest }

/-- A pre-existing category directory holding one image collected by an
earlier run. -/
def seqFs0 : Fs := [(fname "2b" 0, [9])]

/-- A pre-existing category directory with a numbering gap: it holds only
`2b_00001.jpg`.  `start_index` counts files (1 here), so the first new
download is also named `2b_00001.jpg`. -/
def gapFs0 : Fs := [(fname "2b" 1, [9])]

/-- Concrete environment for claim C5: every search yields no results. -/
def emptySearchEnv : Env :=
  { hairType := "2b", target := 5,
    searchO := fun _ _ => [],
    downloadO := fun _ => .netError,
    hashFn := mdigest }

/-- Concrete environment for claim C7. -/
def boundEnv : Env :=
  { hairType := "2b", target := 0,
    searchO := fun _ _ => ["u"],
    downloadO := fun _ => .response "image/jpeg" [[7]] true,
    hashFn := mdigest }

/-- Concrete environment refuting claim C8: the single page's result list
contains the same URL twice. -/
def dupUrlEnv : Env :=
  { hairType := "2b", target := 5,
    searchO := fun i p => if i = 0 ∧ p = 0 then ["u", "u"] else [],
    downloadO := fun _ => .response "image/jpeg" [[7]] true,
    hashFn := mdigest }

/-- Concrete environment for the amended claim C8: the same URL appears on
two different pages, but each page's list has no duplicates. -/
def crossPageEnv : Env :=
  { hairType := "2b", target := 5,
    searchO := fun i p => if i = 0 ∧ (p = 0 ∨ p = 1) then ["u"] else [],
    downloadO := fun _ => .response "image/jpeg" [[7]] true,
    hashFn := mdigest }

/-- Concrete environment for claim C10: the response has an image content
type but its body stream fails after two chunks. -/
def partialEnv : Env :=
  { hairType := "2b", target := 5,
    searchO := fun i p => if i = 0 ∧ p = 0 then ["u"] else [],
    downloadO := fun _ => .response "image/jpeg" [[10], [20]] false,
    hashFn := mdigest }

end Scraper

/-! ### The detection filter (`PersonDetectorFilter`, `yolo.py`) -/

namespace Yolo

/-- One detected bounding box: `int(box.cls[0])` and `float(box.conf[0])`.
Confidence is modelled as a rational; the only use is the comparison with
the threshold `0.5`. -/
structure Box where
  cls : Nat
  conf : ℚ
deriving DecidableEq

/-- The detector's outcome for one image: `none` models an exception raised
while running the model, `some results` the list of results, each carrying
its list of boxes. -/
abbrev Detection := Option (List (List Box))

/-- The confidence threshold `0.5`. -/
def threshold : ℚ := 1 / 2

/-- `count_people_in_image` (lines 35-56): on an exception, `None`;
otherwise the nested loop over `results` and `result.boxes` counting boxes
with `class_id == 0 and confidence > 0.5`. -/
def count_people_in_image (detection : Detection) : Option Nat :=
  match detection with
  | none => none
  | some results =>
    some ((results.map (fun boxes =>
      (boxes.filter (fun b => b.cls == 0 && decide (threshold < b.conf))).length)).sum)

/-- The per-category statistics dict built by `filter_hair_type_folder`. -/
structure TypeStats where
  total : Nat
  one_person : Nat
  zero_people : Nat
  multiple_people : Nat
  errors : Nat

/-- The aggregate statistics dict `self.stats`. -/
structure Stats where
  total_processed : Nat
  one_person : Nat
  zero_people : Nat
  multiple_people : Nat
  errors : Nat
  by_type : List (String × TypeStats)

/-- `self.stats` as initialised in `__init__` (lines 26-33). -/
def initStats : Stats :=
  { total_processed := 0, one_person := 0, zero_people := 0,
    multiple_people := 0, errors := 0, by_type := [] }

/-- An image file of a category directory together with the detector's
outcome on it (the oracle for `self.model(image_path)`). -/
structure Image where
  path : String
  detection : Detection

/-- The state of the per-category loop: `kept_count`, the category's
`type_stats`, the aggregate `self.stats`, and the ghost log of
`shutil.copy2` invocations as (source path, target filename) pairs. -/
structure FoldState where
  kept_count : Nat
  ts : TypeStats
  g : Stats
  copies : List (String × String)

/-- The body of the `for img_path in image_files` loop (lines 94-114):
increment `total_processed`, run the counter, then either record an error,
copy the image to `f"{hair_type}_{kept_count:05d}.jpg"` and count it as
`one_person`, or count it as `zero_people` / `multiple_people`. -/
def processImage (ht : String) (st : FoldState) (img : Image) : FoldState :=
  let g1 := { st.g with total_processed := st.g.total_processed + 1 }
  match count_people_in_image img.detection with
  | none =>
    { st with ts := { st.ts with errors := st.ts.errors + 1 },
              g := { g1 with errors := g1.errors + 1 } }
  | some 1 =>
    let target := fname ht st.kept_count
    { st with copies := st.copies ++ [(img.path, target)],
              kept_count := st.kept_count + 1,
              ts := { st.ts with one_person := st.ts.one_person + 1 },
              g := { g1 with one_person := g1.one_person + 1 } }
  | some 0 =>
    { st with ts := { st.ts with zero_people := st.ts.zero_people + 1 },
              g := { g1 with zero_people := g1.zero_people + 1 } }
  | some _ =>
    { st with ts := { st.ts with multiple_people := st.ts.multiple_people + 1 },
              g := { g1 with multiple_people := g1.multiple_people + 1 } }

/-- `self.stats['by_type'][hair_type] = type_stats`: Python dict assignment
(overwrite an existing key, else append). -/
def setEntry (l : List (String × TypeStats)) (k : String) (v : TypeStats) :
    List (String × TypeStats) :=
  if l.any (fun p => p.1 == k) then
    l.map (fun p => if p.1 == k then (k, v) else p)
  else l ++ [(k, v)]

/-- `filter_hair_type_folder` (lines 58-123) on the image list of one
category directory: run the per-image loop from `kept_count = 0` and the
initial `type_stats` (whose `total` is the number of image files), store
the entry in `by_type`, and report whether the final retention-rate print
succeeds — `type_stats['one_person']/type_stats['total']` raises
`ZeroDivisionError` when the directory holds no images. -/
def filter_hair_type_folder (g : Stats) (ht : String) (imgs : List Image) :
    Stats × List (String × String) × Bool :=
  let ts0 : TypeStats :=
    { total := imgs.length, one_person := 0, zero_people := 0,
      multiple_people := 0, errors := 0 }
  let st := imgs.foldl (processImage ht)
    { kept_count := 0, ts := ts0, g := g, copies := [] }
  let g' := { st.g with by_type := setEntry st.g.by_type ht st.ts }
  (g', st.copies, decide (imgs.length ≠ 0))

/-- The loop of `filter_all` (lines 125-140) over the category directories,
threading `self.stats` and concatenating the copy logs.  The returned
number counts the `save_statistics` calls: one after the loop completes,
zero when a category's retention-rate print raises `ZeroDivisionError` and
aborts the run before `save_statistics`. -/
def filter_all_aux (g : Stats) : List (String × List Image) →
    Stats × List (String × String) × Nat
  | [] => (g, [], 1)
  | c :: rest =>
    let r := filter_hair_type_folder g c.1 c.2
    if r.2.2 then
      let r' := filter_all_aux r.1 rest
      (r'.1, r.2.1 ++ r'.2.1, r'.2.2)
    else (r.1, r.2.1, 0)

/-- `filter_all` starting from the statistics of `__init__`. -/
def filter_all (cats : List (String × List Image)) :
    Stats × List (String × String) × Nat :=
  filter_all_aux initStats cats

/-- The aggregate-statistics invariant of claim C9. -/
def statsInv (g : Stats) : Prop :=
  g.total_processed = g.one_person + g.zero_people + g.multiple_people + g.errors

instance (g : Stats) : Decidable (statsInv g) := by
  unfold statsInv; infer_instance

end Yolo

/-! ### Lemmas about decimal rendering and filenames -/

theorem digitsVal_append_singleton (cs : List Char) (c : Char) :
    digitsVal (cs ++ [c]) = digitsVal cs * 10 + charVal c := by
  simp [digitsVal, List.foldl_append]

theorem charVal_digitChar {d : Nat} (h : d < 10) : charVal (digitChar d) = d := by
  interval_cases d <;> decide

theorem digitsVal_natDigits : ∀ (fuel n : Nat), n < fuel →
    digitsVal (natDigits fuel n) = n := by
  intro fuel
  induction fuel with
  | zero => omega
  | succ fuel ih =>
    intro n hn
    by_cases h10 : n < 10
    · simp [natDigits, h10, digitsVal, charVal_digitChar h10]
    · have hdiv : n / 10 < fuel := by
        have := Nat.div_lt_self (by omega : 0 < n) (by decide : 1 < 10)
        omega
      have hmod : n % 10 < 10 := Nat.mod_lt _ (by decide)
      simp only [natDigits, if_neg h10]
      rw [digitsVal_append_singleton, ih _ hdiv, charVal_digitChar hmod]
      omega

theorem digitsVal_foldl_zero (k : Nat) :
    List.foldl (fun a c => a * 10 + charVal c) 0 (List.replicate k '0') = 0 := by
  induction k with
  | zero => rfl
  | succ k ih =>
    have : charVal '0' = 0 := by decide
    simp [List.replicate_succ, this]
    simpa using ih

theorem digitsVal_pad5 (n : Nat) : digitsVal (pad5 n) = n := by
  unfold pad5 digitsVal
  rw [List.foldl_append, digitsVal_foldl_zero]
  exact digitsVal_natDigits (n + 1) n (Nat.lt_succ_self n)

theorem pad5_injective {m n : Nat} (h : pad5 m = pad5 n) : m = n := by
  have := congrArg digitsVal h
  rwa [digitsVal_pad5, digitsVal_pad5] at this

theorem fname_injective {ht : String} {i j : Nat} (h : fname ht i = fname ht j) :
    i = j := by
  unfold fname at h
  have hdata : ht.data ++ '_' :: (pad5 i ++ jpgExt)
      = ht.data ++ '_' :: (pad5 j ++ jpgExt) := by
    simpa using congrArg String.data h
  have h1 : pad5 i ++ jpgExt = pad5 j ++ jpgExt := by
    have := List.append_cancel_left hdata
    simpa using this
  exact pad5_injective (List.append_cancel_right h1)

theorem endsWith_append (a suf : List Char) : endsWith (a ++ suf) suf = true := by
  unfold endsWith
  rw [List.isPrefixOf_iff_prefix, List.reverse_append]
  exact List.prefix_append _ _

theorem isImageFile_fname (ht : String) (i : Nat) :
    isImageFile (fname ht i) = true := by
  unfold isImageFile fname
  have : (String.mk (ht.data ++ '_' :: (pad5 i ++ jpgExt))).data
      = (ht.data ++ '_' :: pad5 i) ++ jpgExt := by simp
  rw [this]
  have hj : (".jpg" : String).data = jpgExt := by decide
  rw [hj, endsWith_append]
  simp

/-! ### Scraper lemmas -/

namespace Scraper

/-- Case analysis of one URL step: either the download fails without a
write, or a file is written (partial write, or a write followed by the
duplicate unlink) without keeping, or the file is written and kept. -/
theorem processUrl_shape (env : Env) (si : Nat) (st : CState) (u : Url) :
    (processUrl env si st u =
      { st with seen_urls := u :: st.seen_urls, dlLog := st.dlLog ++ [u] }) ∨
    (∃ fs', processUrl env si st u =
      { st with seen_urls := u :: st.seen_urls, dlLog := st.dlLog ++ [u],
                fs := fs',
                writeLog := st.writeLog ++ [fname env.hairType (si + st.downloaded)] }) ∨
    (∃ c, env.hashFn c ∉ st.seen_hashes ∧ processUrl env si st u =
      { st with seen_urls := u :: st.seen_urls, dlLog := st.dlLog ++ [u],
                fs := fsWrite st.fs (fname env.hairType (si + st.downloaded)) c,
                writeLog := st.writeLog ++ [fname env.hairType (si + st.downloaded)],
                seen_hashes := env.hashFn c :: st.seen_hashes,
                downloaded := st.downloaded + 1,
                keptLog := st.keptLog ++ [(fname env.hairType (si + st.downloaded), c)] }) := by
  rcases hdl : download_image (env.downloadO u) with ⟨_ | _, _ | c⟩
  · left; simp [processUrl, hdl]
  · right; left
    exact ⟨fsWrite st.fs (fname env.hairType (si + st.downloaded)) c,
      by simp [processUrl, hdl]⟩
  · left; simp [processUrl, hdl]
  · by_cases hmem : env.hashFn c ∈ st.seen_hashes
    · right; left
      refine ⟨fsUnlink (fsWrite st.fs (fname env.hairType (si + st.downloaded)) c)
        (fname env.hairType (si + st.downloaded)), ?_⟩
      simp [processUrl, hdl, hmem]
    · right; right
      exact ⟨c, hmem, by simp [processUrl, hdl, hmem]⟩

theorem processUrl_seen_urls (env : Env) (si : Nat) (st : CState) (u : Url) :
    (processUrl env si st u).seen_urls = u :: st.seen_urls := by
  rcases processUrl_shape env si st u with h | ⟨fs', h⟩ | ⟨c, _, h⟩ <;> rw [h]

theorem processUrl_dlLog (env : Env) (si : Nat) (st : CState) (u : Url) :
    (processUrl env si st u).dlLog = st.dlLog ++ [u] := by
  rcases processUrl_shape env si st u with h | ⟨fs', h⟩ | ⟨c, _, h⟩ <;> rw [h]

theorem processUrl_api_calls (env : Env) (si : Nat) (st : CState) (u : Url) :
    (processUrl env si st u).api_calls = st.api_calls := by
  rcases processUrl_shape env si st u with h | ⟨fs', h⟩ | ⟨c, _, h⟩ <;> rw [h]

theorem processUrl_downloaded_le (env : Env) (si : Nat) (st : CState) (u : Url) :
    (processUrl env si st u).downloaded ≤ st.downloaded + 1 := by
  rcases processUrl_shape env si st u with h | ⟨fs', h⟩ | ⟨c, _, h⟩ <;> rw [h] <;> simp

/-- A state predicate preserved by each URL step and by counting an API
call is preserved by the whole run. -/
theorem processUrls_pres (env : Env) (si : Nat) (P : CState → Prop)
    (hstep : ∀ st u, P st → P (processUrl env si st u)) :
    ∀ (urls : List Url) (st : CState), P st → P (processUrls env si st urls) := by
  intro urls
  induction urls with
  | nil => exact fun st h => h
  | cons u rest ih =>
    intro st h
    unfold processUrls
    by_cases hbr : env.target ≤ st.downloaded
    · simpa [hbr] using h
    · simp only [if_neg hbr]
      exact ih _ (hstep st u h)

theorem processPage_pres (env : Env) (si : Nat) (P : CState → Prop)
    (hstep : ∀ st u, P st → P (processUrl env si st u))
    (hapi : ∀ st, P st → P { st with api_calls := st.api_calls + 1 }) :
    ∀ (st : CState) (q p : Nat), P st → P (processPage env si st q p) := by
  intro st q p h
  unfold processPage
  by_cases he : (env.searchO q p).isEmpty
  · simpa [he] using hapi st h
  · simp only [if_neg he]
    exact processUrls_pres env si P hstep _ _ (hapi st h)

theorem runPages_pres (env : Env) (si : Nat) (P : CState → Prop)
    (hstep : ∀ st u, P st → P (processUrl env si st u))
    (hapi : ∀ st, P st → P { st with api_calls := st.api_calls + 1 }) :
    ∀ (pages : List Nat) (st : CState) (q : Nat), P st → P (runPages env si q st pages) := by
  intro pages
  induction pages with
  | nil => exact fun st q h => h
  | cons p rest ih =>
    intro st q h
    unfold runPages
    by_cases hbr : env.target ≤ st.downloaded
    · simpa [hbr] using h
    · simp only [if_neg hbr]
      exact ih _ _ (processPage_pres env si P hstep hapi st q p h)

theorem runQueries_pres (env : Env) (si : Nat) (P : CState → Prop)
    (hstep : ∀ st u, P st → P (processUrl env si st u))
    (hapi : ∀ st, P st → P { st with api_calls := st.api_calls + 1 }) :
    ∀ (qs : List Nat) (st : CState), P st → P (runQueries env si st qs) := by
  intro qs
  induction qs with
  | nil => exact fun st h => h
  | cons q rest ih =>
    intro st h
    unfold runQueries
    by_cases hbr : env.target ≤ st.downloaded
    · simpa [hbr] using h
    · simp only [if_neg hbr]
      exact ih _ (runPages_pres env si P hstep hapi [0, 1] st q h)

theorem collect_pres (env : Env) (numQueries : Nat) (fs0 : Fs) (P : CState → Prop)
    (hstep : ∀ st u, P st → P (processUrl env (countImages fs0) st u))
    (hapi : ∀ st, P st → P { st with api_calls := st.api_calls + 1 })
    (hinit : P (initState fs0)) :
    P (collect_images_for_type env numQueries fs0) :=
  runQueries_pres env (countImages fs0) P hstep hapi _ _ hinit

/-! #### API-call and download counting (claim C7) -/

theorem processUrls_api_calls (env : Env) (si : Nat) :
    ∀ (urls : List Url) (st : CState),
      (processUrls env si st urls).api_calls = st.api_calls := by
  intro urls
  induction urls with
  | nil => exact fun st => rfl
  | cons u rest ih =>
    intro st
    unfold processUrls
    by_cases hbr : env.target ≤ st.downloaded
    · simp [hbr]
    · simp only [if_neg hbr]
      rw [ih, processUrl_api_calls]

theorem processPage_api_calls (env : Env) (si : Nat) (st : CState) (q p : Nat) :
    (processPage env si st q p).api_calls = st.api_calls + 1 := by
  unfold processPage
  by_cases he : (env.searchO q p).isEmpty
  · simp [he]
  · simp only [if_neg he]
    rw [processUrls_api_calls]

theorem runPages_api_calls (env : Env) (si : Nat) :
    ∀ (pages : List Nat) (st : CState) (q : Nat),
      (runPages env si q st pages).api_calls ≤ st.api_calls + pages.length := by
  intro pages
  induction pages with
  | nil => intro st q; simp [runPages]
  | cons p rest ih =>
    intro st q
    unfold runPages
    by_cases hbr : env.target ≤ st.downloaded
    · simp only [if_pos hbr, List.length_cons]; omega
    · simp only [if_neg hbr, List.length_cons]
      have h1 := ih (processPage env si st q p) q
      rw [processPage_api_calls] at h1
      omega

theorem runQueries_api_calls (env : Env) (si : Nat) :
    ∀ (qs : List Nat) (st : CState),
      (runQueries env si st qs).api_calls ≤ st.api_calls + 2 * qs.length := by
  intro qs
  induction qs with
  | nil => intro st; simp [runQueries]
  | cons q rest ih =>
    intro st
    unfold runQueries
    by_cases hbr : env.target ≤ st.downloaded
    · simp only [if_pos hbr, List.length_cons]; omega
    · simp only [if_neg hbr, List.length_cons]
      have h1 := ih (runPages env si q st [0, 1])
      have h2 := runPages_api_calls env si [0, 1] st q
      simp only [List.length_cons, List.length_nil] at h2
      omega

theorem processUrls_downloaded_le_target (env : Env) (si : Nat) :
    ∀ (urls : List Url) (st : CState), st.downloaded ≤ env.target →
      (processUrls env si st urls).downloaded ≤ env.target := by
  intro urls
  induction urls with
  | nil => exact fun st h => h
  | cons u rest ih =>
    intro st h
    unfold processUrls
    by_cases hbr : env.target ≤ st.downloaded
    · simpa [hbr] using h
    · simp only [if_neg hbr]
      exact ih _ ((processUrl_downloaded_le env si st u).trans (by omega))

theorem processPage_downloaded_le_target (env : Env) (si : Nat) (st : CState)
    (q p : Nat) (h : st.downloaded ≤ env.target) :
    (processPage env si st q p).downloaded ≤ env.target := by
  unfold processPage
  by_cases he : (env.searchO q p).isEmpty
  · simpa [he] using h
  · simp only [if_neg he]
    exact processUrls_downloaded_le_target env si _ _ (by simpa using h)

theorem runPages_downloaded_le_target (env : Env) (si : Nat) :
    ∀ (pages : List Nat) (st : CState) (q : Nat), st.downloaded ≤ env.target →
      (runPages env si q st pages).downloaded ≤ env.target := by
  intro pages
  induction pages with
  | nil => exact fun st q h => h
  | cons p rest ih =>
    intro st q h
    unfold runPages
    by_cases hbr : env.target ≤ st.downloaded
    · simpa [hbr] using h
    · simp only [if_neg hbr]
      exact ih _ _ (processPage_downloaded_le_target env si st q p h)

theorem runQueries_downloaded_le_target (env : Env) (si : Nat) :
    ∀ (qs : List Nat) (st : CState), st.downloaded ≤ env.target →
      (runQueries env si st qs).downloaded ≤ env.target := by
  intro qs
  induction qs with
  | nil => exact fun st h => h
  | cons q rest ih =>
    intro st h
    unfold runQueries
    by_cases hbr : env.target ≤ st.downloaded
    · simpa [hbr] using h
    · simp only [if_neg hbr]
      exact ih _ (runPages_downloaded_le_target env si [0, 1] st q h)

/-! #### Filesystem lemmas -/

theorem fsGet_fsWrite (fs : Fs) (n : String) (c : Content) :
    fsGet (fsWrite fs n c) n = some c := by
  simp [fsGet, fsWrite, List.find?]

theorem fsGet_fsUnlink (fs : Fs) (n : String) :
    fsGet (fsUnlink fs n) n = none := by
  unfold fsGet fsUnlink
  rw [List.find?_eq_none.mpr]
  · rfl
  · intro p hp
    have := (List.mem_filter.mp hp).2
    simpa using this

/-! #### The duplicate-download invariant (claim C8) -/

theorem processUrl_UrlInv (env : Env) (si : Nat) (st : CState) (u : Url)
    (h : UrlInv st) (hu : u ∉ st.seen_urls) : UrlInv (processUrl env si st u) := by
  obtain ⟨hnd, hsub⟩ := h
  constructor
  · rw [processUrl_dlLog]
    refine hnd.append (by simp) ?_
    intro a ha hb
    simp only [List.mem_singleton] at hb
    subst hb
    exact hu (hsub a ha)
  · rw [processUrl_dlLog, processUrl_seen_urls]
    intro v hv
    rcases List.mem_append.mp hv with hv | hv
    · exact List.mem_cons_of_mem _ (hsub v hv)
    · simp only [List.mem_singleton] at hv
      subst hv
      exact List.mem_cons_self _ _

theorem processUrls_UrlInv (env : Env) (si : Nat) :
    ∀ (urls : List Url) (st : CState), UrlInv st → urls.Nodup →
      (∀ v ∈ urls, v ∉ st.seen_urls) → UrlInv (processUrls env si st urls) := by
  intro urls
  induction urls with
  | nil => exact fun st h _ _ => h
  | cons u rest ih =>
    intro st h hnd hdisj
    unfold processUrls
    by_cases hbr : env.target ≤ st.downloaded
    · simpa [hbr] using h
    · simp only [if_neg hbr]
      refine ih _ (processUrl_UrlInv env si st u h (hdisj u (by simp)))
        (List.Nodup.of_cons hnd) ?_
      intro v hv
      rw [processUrl_seen_urls]
      simp only [List.mem_cons, not_or]
      refine ⟨?_, hdisj v (List.mem_cons_of_mem _ hv)⟩
      rintro rfl
      exact (List.nodup_cons.mp hnd).1 hv

theorem processPage_UrlInv (env : Env) (si : Nat) (st : CState) (q p : Nat)
    (h : UrlInv st) (hnd : (env.searchO q p).Nodup) :
    UrlInv (processPage env si st q p) := by
  unfold processPage
  by_cases he : (env.searchO q p).isEmpty
  · simpa [he] using h
  · simp only [if_neg he]
    refine processUrls_UrlInv env si _ _ h (hnd.filter _) ?_
    intro v hv
    have := (List.mem_filter.mp hv).2
    simpa using this

theorem runPages_UrlInv (env : Env) (si : Nat)
    (hall : ∀ q p, (env.searchO q p).Nodup) :
    ∀ (pages : List Nat) (st : CState) (q : Nat), UrlInv st →
      UrlInv (runPages env si q st pages) := by
  intro pages
  induction pages with
  | nil => exact fun st q h => h
  | cons p rest ih =>
    intro st q h
    unfold runPages
    by_cases hbr : env.target ≤ st.downloaded
    · simpa [hbr] using h
    · simp only [if_neg hbr]
      exact ih _ _ (processPage_UrlInv env si st q p h (hall q p))

theorem runQueries_UrlInv (env : Env) (si : Nat)
    (hall : ∀ q p, (env.searchO q p).Nodup) :
    ∀ (qs : List Nat) (st : CState), UrlInv st →
      UrlInv (runQueries env si st qs) := by
  intro qs
  induction qs with
  | nil => exact fun st h => h
  | cons q rest ih =>
    intro st h
    unfold runQueries
    by_cases hbr : env.target ≤ st.downloaded
    · simpa [hbr] using h
    · simp only [if_neg hbr]
      exact ih _ (runPages_UrlInv env si hall [0, 1] st q h)

/-! #### The kept-hash invariant (claim C2) -/

theorem processUrl_KeptInv (env : Env) (si : Nat) (st : CState) (u : Url)
    (h : KeptInv env st) : KeptInv env (processUrl env si st u) := by
  obtain ⟨hnd, hsub⟩ := h
  rcases processUrl_shape env si st u with heq | ⟨fs', heq⟩ | ⟨c, hnot, heq⟩ <;> rw [heq]
  · exact ⟨hnd, hsub⟩
  · exact ⟨hnd, hsub⟩
  · constructor
    · simp only [List.map_append, List.map_cons, List.map_nil]
      refine hnd.append (by simp) ?_
      intro a ha hb
      simp only [List.mem_singleton] at hb
      subst hb
      obtain ⟨p, hp, hpe⟩ := List.mem_map.mp ha
      exact hnot (hpe ▸ hsub p hp)
    · intro p hp
      rcases List.mem_append.mp hp with hp | hp
      · exact List.mem_cons_of_mem _ (hsub p hp)
      · simp only [List.mem_singleton] at hp
        subst hp
        exact List.mem_cons_self _ _

theorem collect_KeptInv (env : Env) (numQueries : Nat) (fs0 : Fs) :
    KeptInv env (collect_images_for_type env numQueries fs0) := by
  refine collect_pres env numQueries fs0 (KeptInv env)
    (fun st u h => processUrl_KeptInv env _ st u h) (fun st h => h) ?_
  exact ⟨by simp [initState], by simp [initState]⟩

/-! #### The filename invariant (claim C3) -/

theorem processUrl_NameInv (env : Env) (si : Nat) (st : CState) (u : Url)
    (h : NameInv env si st) : NameInv env si (processUrl env si st u) := by
  obtain ⟨hkept, hwrite⟩ := h
  rcases processUrl_shape env si st u with heq | ⟨fs', heq⟩ | ⟨c, hnot, heq⟩ <;> rw [heq]
  · exact ⟨hkept, hwrite⟩
  · refine ⟨hkept, ?_⟩
    intro nm hnm
    rcases List.mem_append.mp hnm with hnm | hnm
    · exact hwrite nm hnm
    · simp only [List.mem_singleton] at hnm
      exact ⟨si + st.downloaded, by omega, hnm⟩
  · constructor
    · simp only [List.map_append, List.map_cons, List.map_nil, List.range_succ]
      rw [hkept]
    · intro nm hnm
      rcases List.mem_append.mp hnm with hnm | hnm
      · exact hwrite nm hnm
      · simp only [List.mem_singleton] at hnm
        exact ⟨si + st.downloaded, by omega, hnm⟩

theorem collect_NameInv (env : Env) (numQueries : Nat) (fs0 : Fs) :
    NameInv env (countImages fs0) (collect_images_for_type env numQueries fs0) := by
  refine collect_pres env numQueries fs0 (NameInv env (countImages fs0))
    (fun st u h => processUrl_NameInv env _ st u h) (fun st h => h) ?_
  exact ⟨by simp [initState], by simp [initState]⟩

end Scraper

/-! ### Detection-filter lemmas -/

namespace Yolo

/-- One image step moves the `one_person` counters (aggregate and
per-type) and the copy log together by the same amount, and never touches
`by_type`. -/
theorem processImage_one (ht : String) (st : FoldState) (img : Image) : ∃ d,
    (processImage ht st img).g.one_person = st.g.one_person + d ∧
    (processImage ht st img).ts.one_person = st.ts.one_person + d ∧
    (processImage ht st img).copies.length = st.copies.length + d ∧
    (processImage ht st img).g.by_type = st.g.by_type := by
  rcases hc : count_people_in_image img.detection with _ | (_ | _ | n)
  · exact ⟨0, by simp [processImage, hc]⟩
  · exact ⟨0, by simp [processImage, hc]⟩
  · exact ⟨1, by simp [processImage, hc]⟩
  · exact ⟨0, by simp [processImage, hc]⟩

/-- One image step: `total` is untouched, each of the two bucket sums and
`total_processed` grow by exactly one. -/
theorem processImage_counts (ht : String) (st : FoldState) (img : Image) :
    (processImage ht st img).ts.total = st.ts.total ∧
    ((processImage ht st img).ts.one_person + (processImage ht st img).ts.zero_people +
        (processImage ht st img).ts.multiple_people + (processImage ht st img).ts.errors)
      = (st.ts.one_person + st.ts.zero_people + st.ts.multiple_people + st.ts.errors) + 1 ∧
    (processImage ht st img).g.total_processed = st.g.total_processed + 1 ∧
    ((processImage ht st img).g.one_person + (processImage ht st img).g.zero_people +
        (processImage ht st img).g.multiple_people + (processImage ht st img).g.errors)
      = (st.g.one_person + st.g.zero_people + st.g.multiple_people + st.g.errors) + 1 := by
  rcases hc : count_people_in_image img.detection with _ | (_ | _ | n) <;>
    simp [processImage, hc] <;> omega

theorem foldl_processImage_one (ht : String) :
    ∀ (imgs : List Image) (st : FoldState), ∃ k,
      (imgs.foldl (processImage ht) st).g.one_person = st.g.one_person + k ∧
      (imgs.foldl (processImage ht) st).ts.one_person = st.ts.one_person + k ∧
      (imgs.foldl (processImage ht) st).copies.length = st.copies.length + k ∧
      (imgs.foldl (processImage ht) st).g.by_type = st.g.by_type := by
  intro imgs
  induction imgs with
  | nil => exact fun st => ⟨0, rfl, rfl, rfl, rfl⟩
  | cons img rest ih =>
    intro st
    obtain ⟨d, hd1, hd2, hd3, hd4⟩ := processImage_one ht st img
    obtain ⟨k, hk1, hk2, hk3, hk4⟩ := ih (processImage ht st img)
    exact ⟨d + k, by simp only [List.foldl_cons]; omega,
      by simp only [List.foldl_cons]; omega,
      by simp only [List.foldl_cons]; omega,
      by simp only [List.foldl_cons]; rw [hk4, hd4]⟩

theorem foldl_processImage_counts (ht : String) :
    ∀ (imgs : List Image) (st : FoldState),
      (imgs.foldl (processImage ht) st).ts.total = st.ts.total ∧
      ((imgs.foldl (processImage ht) st).ts.one_person +
          (imgs.foldl (processImage ht) st).ts.zero_people +
          (imgs.foldl (processImage ht) st).ts.multiple_people +
          (imgs.foldl (processImage ht) st).ts.errors)
        = (st.ts.one_person + st.ts.zero_people + st.ts.multiple_people + st.ts.errors)
            + imgs.length := by
  intro imgs
  induction imgs with
  | nil => exact fun st => ⟨rfl, rfl⟩
  | cons img rest ih =>
    intro st
    obtain ⟨h1, h2, _, _⟩ := processImage_counts ht st img
    obtain ⟨k1, k2⟩ := ih (processImage ht st img)
    refine ⟨by simp only [List.foldl_cons]; rw [k1, h1], ?_⟩
    simp only [List.foldl_cons, List.length_cons]
    omega

/-- `statsInv` is preserved by each image step. -/
theorem processImage_statsInv (ht : String) (st : FoldState) (img : Image)
    (h : statsInv st.g) : statsInv (processImage ht st img).g := by
  obtain ⟨_, _, h3, h4⟩ := processImage_counts ht st img
  unfold statsInv at *
  omega

theorem setEntry_fresh (l : List (String × TypeStats)) (k : String) (v : TypeStats)
    (h : ∀ p ∈ l, p.1 ≠ k) : setEntry l k v = l ++ [(k, v)] := by
  unfold setEntry
  rw [if_neg]
  simp only [List.any_eq_true, not_exists, not_and]
  intro p hp
  simpa using h p hp

theorem mem_setEntry (l : List (String × TypeStats)) (k : String) (v : TypeStats) :
    (k, v) ∈ setEntry l k v := by
  unfold setEntry
  by_cases hany : l.any (fun p => p.1 == k) = true
  · simp only [if_pos hany]
    obtain ⟨p, hp, he⟩ := List.any_eq_true.mp hany
    exact List.mem_map.mpr ⟨p, hp, by simp [he]⟩
  · simp [hany]

/-- One category run: `one_person` grows by the number of copies made, the
`by_type` entry for a fresh category is appended with that same count, and
the retention-rate print succeeds exactly on a nonempty image list. -/
theorem filter_folder_spec (g : Stats) (ht : String) (imgs : List Image)
    (hfresh : ∀ p ∈ g.by_type, p.1 ≠ ht) : ∃ k ts,
    (filter_hair_type_folder g ht imgs).1.one_person = g.one_person + k ∧
    (filter_hair_type_folder g ht imgs).2.1.length = k ∧
    (filter_hair_type_folder g ht imgs).1.by_type = g.by_type ++ [(ht, ts)] ∧
    ts.one_person = k ∧
    (filter_hair_type_folder g ht imgs).2.2 = decide (imgs.length ≠ 0) := by
  obtain ⟨k, hk1, hk2, hk3, hk4⟩ := foldl_processImage_one ht imgs
    { kept_count := 0,
      ts := { total := imgs.length, one_person := 0, zero_people := 0,
              multiple_people := 0, errors := 0 },
      g := g, copies := [] }
  refine ⟨k, (imgs.foldl (processImage ht)
    { kept_count := 0,
      ts := { total := imgs.length, one_person := 0, zero_people := 0,
              multiple_people := 0, errors := 0 },
      g := g, copies := [] }).ts, ?_, ?_, ?_, ?_, rfl⟩
  · simpa using hk1
  · simpa using hk3
  · show setEntry _ ht _ = _
    rw [hk4]
    exact setEntry_fresh _ _ _ fun p hp => hfresh p hp
  · simpa using hk2

theorem filter_all_aux_spec :
    ∀ (cats : List (String × List Image)) (g : Stats),
      (∀ c ∈ cats, c.2 ≠ []) → (cats.map Prod.fst).Nodup →
      (∀ k ∈ cats.map Prod.fst, ∀ p ∈ g.by_type, p.1 ≠ k) →
      (filter_all_aux g cats).2.2 = 1 ∧
      (filter_all_aux g cats).1.one_person
        = g.one_person + (filter_all_aux g cats).2.1.length ∧
      ((filter_all_aux g cats).1.by_type.map (fun p => p.2.one_person)).sum
        = (g.by_type.map (fun p => p.2.one_person)).sum
            + (filter_all_aux g cats).2.1.length := by
  intro cats
  induction cats with
  | nil =>
    intro g _ _ _
    exact ⟨rfl, by simp [filter_all_aux], by simp [filter_all_aux]⟩
  | cons c rest ih =>
    intro g hne hnd hfresh
    obtain ⟨k, ts, hone, hlen, hbt, htsone, hokv⟩ :=
      filter_folder_spec g c.1 c.2 (fun p hp => hfresh c.1 (by simp) p hp)
    have hok : (filter_hair_type_folder g c.1 c.2).2.2 = true := by
      rw [hokv]
      simp only [decide_eq_true_eq]
      intro hlen0
      exact hne c (by simp) (List.length_eq_zero.mp hlen0)
    have hcnotin : c.1 ∉ rest.map Prod.fst := (List.nodup_cons.mp (by simpa using hnd)).1
    have hih := ih (filter_hair_type_folder g c.1 c.2).1
      (fun x hx => hne x (List.mem_cons_of_mem _ hx))
      (List.Nodup.of_cons (by simpa using hnd))
      (by
        intro k' hk' p hp
        rw [hbt] at hp
        rcases List.mem_append.mp hp with hp | hp
        · exact hfresh k' (List.mem_cons_of_mem _ hk') p hp
        · simp only [List.mem_singleton] at hp
          subst hp
          intro hcontra
          exact hcnotin (hcontra ▸ hk'))
    obtain ⟨hsave, hone', hsum'⟩ := hih
    have hsplit : filter_all_aux g (c :: rest)
        = ((filter_all_aux (filter_hair_type_folder g c.1 c.2).1 rest).1,
           (filter_hair_type_folder g c.1 c.2).2.1
             ++ (filter_all_aux (filter_hair_type_folder g c.1 c.2).1 rest).2.1,
           (filter_all_aux (filter_hair_type_folder g c.1 c.2).1 rest).2.2) := by
      conv_lhs => rw [filter_all_aux]
      simp [hok]
    rw [hsplit]
    refine ⟨hsave, ?_, ?_⟩
    · simp only [List.length_append]
      omega
    · simp only [List.length_append]
      rw [hsum', hbt]
      simp only [List.map_append, List.sum_append, List.map_cons, List.map_nil,
        List.sum_cons, List.sum_nil]
      omega

end Yolo

/-! ### The claims -/

open Scraper Yolo

theorem length_filter_flatten {α : Type} (p : α → Bool) :
    ∀ ls : List (List α),
      (ls.map (fun l => (l.filter p).length)).sum = ((ls.flatten).filter p).length := by
  intro ls
  induction ls with
  | nil => rfl
  | cons l rest ih => simp [List.filter_append, ih]

theorem count_eq_none_iff (d : Detection) :
    count_people_in_image d = none ↔ d = none := by
  cases d <;> simp [count_people_in_image]

/-- Claim C1: the person count of an image is the number of detected boxes
with class id 0 and confidence strictly above 0.5 (and `None` exactly when
the detector raised); an image whose count is exactly 1 produces one copy
event, to the re-sequenced filename `f"{hair_type}_{kept_count:05d}.jpg"`,
and an image with any other count (or a detector error, which increments
the error counter) produces none. -/
theorem claim_C1 :
    (∀ results : List (List Box),
      count_people_in_image (some results)
        = some ((results.flatten.filter
            (fun b => b.cls == 0 && decide (threshold < b.conf))).length)) ∧
    (count_people_in_image none = none) ∧
    (∀ (ht : String) (st : FoldState) (img : Image),
      (processImage ht st img).copies
        = st.copies ++
            (if count_people_in_image img.detection = some 1 then
              [(img.path, fname ht st.kept_count)] else []) ∧
      (processImage ht st img).ts.errors
        = st.ts.errors + (if img.detection = none then 1 else 0)) := by
  refine ⟨?_, rfl, ?_⟩
  · intro results
    rw [count_people_in_image, length_filter_flatten]
  · intro ht st img
    rcases hc : count_people_in_image img.detection with _ | n
    · have hd : img.detection = none := (count_eq_none_iff _).mp hc
      simp [processImage, count_people_in_image, hd]
    · have hd : img.detection ≠ none := by
        intro h
        rw [(count_eq_none_iff img.detection).mpr h] at hc
        exact Option.noConfusion hc
      rcases n with _ | _ | n <;> simp [processImage, hc, hd]

/-- Claim C2: on a successful download, a file whose hash was already seen
is deleted (the target path no longer resolves) and not counted, while a
fresh hash is recorded, the file kept and counted; consequently the files
kept by a category collection run have pairwise distinct byte contents. -/
theorem claim_C2 :
    (∀ (env : Env) (si : Nat) (st : CState) (url : Url) (c : Content),
      download_image (env.downloadO url) = (true, some c) →
      (env.hashFn c ∈ st.seen_hashes →
        fsGet (processUrl env si st url).fs (fname env.hairType (si + st.downloaded))
            = none ∧
        (processUrl env si st url).downloaded = st.downloaded ∧
        (processUrl env si st url).keptLog = st.keptLog) ∧
      (env.hashFn c ∉ st.seen_hashes →
        env.hashFn c ∈ (processUrl env si st url).seen_hashes ∧
        fsGet (processUrl env si st url).fs (fname env.hairType (si + st.downloaded))
            = some c ∧
        (processUrl env si st url).downloaded = st.downloaded + 1 ∧
        (processUrl env si st url).keptLog
          = st.keptLog ++ [(fname env.hairType (si + st.downloaded), c)])) ∧
    (∀ (env : Env) (numQueries : Nat) (fs0 : Fs),
      List.Pairwise (fun a b => a.2 ≠ b.2)
        (collect_images_for_type env numQueries fs0).keptLog) := by
  constructor
  · intro env si st url c hdl
    constructor
    · intro hmem
      refine ⟨?_, ?_, ?_⟩ <;> simp [processUrl, hdl, hmem, fsGet_fsUnlink]
    · intro hmem
      refine ⟨?_, ?_, ?_, ?_⟩ <;> simp [processUrl, hdl, hmem, fsGet_fsWrite]
  · intro env numQueries fs0
    have h := (collect_KeptInv env numQueries fs0).1
    rw [List.Nodup, List.pairwise_map] at h
    exact h.imp fun hne heq => hne (by rw [heq])

/-- Witness for C2: in `hashDupEnv` the download of `"u"` succeeds with
bytes `[7]`, whose hash is fresh in the initial state, so the file is kept
and counted. -/
theorem claim_C2_witness :
    download_image (hashDupEnv.downloadO "u") = (true, some [7]) ∧
    (processUrl hashDupEnv 0 (initState []) "u").downloaded = 0 + 1 :=
  ⟨rfl,
    ((claim_C2.1 hashDupEnv 0 (initState []) "u" [7] rfl).2 (by decide)).2.2.1⟩

/-- Counterexample to C3 as stated: in the gapped directory `gapFs0`, whose
only file is the image `2b_00001.jpg`, the count of existing images is 1,
so the first download of the run is written to the very same name
`2b_00001.jpg`: the run's write log contains the name of a pre-existing
file, whose content `[9]` is replaced by the downloaded bytes `[7]`.  The
claimed no-collision property is therefore false as stated. -/
theorem claim_C3_counterexample :
    (fname "2b" 1, ([9] : Content)) ∈ gapFs0 ∧
    fname "2b" 1 ∈ (collect_images_for_type seqEnv 1 gapFs0).writeLog ∧
    fsGet (collect_images_for_type seqEnv 1 gapFs0).fs (fname "2b" 1) = some [7] ∧
    ¬ (∀ nm ∈ (collect_images_for_type seqEnv 1 gapFs0).writeLog,
        ∀ p ∈ gapFs0, nm ≠ p.1) := by
  decide

/-- Claim C3 (amended): the kept files of a run are named with strictly
increasing indices `start_index, start_index + 1, …` where `start_index` is
the count of pre-existing image files; and provided the pre-existing image
files of the category directory are the contiguously numbered files of
earlier runs (every index below their count, which is exactly how the
scraper itself leaves a directory), no write of the run ever targets the
name of a pre-existing file.  Without that precondition the collision
claim fails, as `claim_C3_counterexample` shows on a gapped directory. -/
theorem claim_C3 (env : Env) (numQueries : Nat) (fs0 : Fs)
    (hpre : ∀ p ∈ fs0, isImageFile p.1 = true →
      ∃ i, i < countImages fs0 ∧ p.1 = fname env.hairType i) :
    ((collect_images_for_type env numQueries fs0).keptLog.map Prod.fst
      = (List.range (collect_images_for_type env numQueries fs0).downloaded).map
          (fun k => fname env.hairType (countImages fs0 + k))) ∧
    (∀ nm ∈ (collect_images_for_type env numQueries fs0).writeLog,
      ∀ p ∈ fs0, nm ≠ p.1) := by
  obtain ⟨h1, h2⟩ := collect_NameInv env numQueries fs0
  refine ⟨h1, ?_⟩
  intro nm hnm p hp heq
  obtain ⟨i, hge, hni⟩ := h2 nm hnm
  have himg : isImageFile p.1 = true := by
    rw [← heq, hni]
    exact isImageFile_fname _ _
  obtain ⟨j, hj, hpj⟩ := hpre p hp himg
  have hij : i = j := fname_injective (by rw [← hni, heq]; exact hpj)
  omega

/-- Witness for C3: a directory holding the single image `2b_00000.jpg`
from an earlier run satisfies the contiguity hypothesis, and the run in
`seqEnv` then keeps files numbered from `countImages seqFs0 = 1` and never
writes over the pre-existing file. -/
theorem claim_C3_witness :
    ((collect_images_for_type seqEnv 1 seqFs0).keptLog.map Prod.fst
      = (List.range (collect_images_for_type seqEnv 1 seqFs0).downloaded).map
          (fun k => fname seqEnv.hairType (countImages seqFs0 + k))) ∧
    (∀ nm ∈ (collect_images_for_type seqEnv 1 seqFs0).writeLog,
      ∀ p ∈ seqFs0, nm ≠ p.1) :=
  claim_C3 seqEnv 1 seqFs0 (by
    intro p hp _
    simp only [seqFs0, List.mem_singleton] at hp
    subst hp
    exact ⟨0, by decide, rfl⟩)

/-- Counterexample to C4 as stated: on a dataset containing a category
directory with zero image files, the run aborts with `ZeroDivisionError`
in the retention-rate report (`type_stats['one_person']/type_stats['total']`)
before `save_statistics`, so the statistics file is written zero times, not
exactly once. -/
theorem claim_C4_counterexample :
    (filter_all [("1", [])]).2.2 = 0 ∧ ¬ (filter_all [("1", [])]).2.2 = 1 := by
  decide

/-- Claim C4 (amended): provided every category directory holds at least
one image file — otherwise the retention-rate report divides by zero and
aborts the run before saving — and the category names are distinct, the
statistics are written exactly once, after every category has been
processed, and both the aggregate `one_person` counter and the sum of the
per-category `one_person` counters equal the number of copy operations
performed into the output tree. -/
theorem claim_C4 (cats : List (String × List Image))
    (hne : ∀ c ∈ cats, c.2 ≠ [])
    (hkeys : (cats.map Prod.fst).Nodup) :
    (filter_all cats).2.2 = 1 ∧
    (filter_all cats).1.one_person = (filter_all cats).2.1.length ∧
    ((filter_all cats).1.by_type.map (fun p => p.2.one_person)).sum
      = (filter_all cats).2.1.length := by
  obtain ⟨h1, h2, h3⟩ := filter_all_aux_spec cats initStats hne hkeys
    (by simp [initStats])
  unfold filter_all
  exact ⟨h1, by simpa [initStats] using h2, by simpa [initStats] using h3⟩

/-- Witness for C4: a single nonempty category (one image with no detected
boxes) saves the statistics exactly once and keeps counts consistent. -/
theorem claim_C4_witness :
    (filter_all [("1", [Image.mk "p" (some [[]])])]).2.2 = 1 ∧
    (filter_all [("1", [Image.mk "p" (some [[]])])]).1.one_person
      = (filter_all [("1", [Image.mk "p" (some [[]])])]).2.1.length ∧
    ((filter_all [("1", [Image.mk "p" (some [[]])])]).1.by_type.map
        (fun p => p.2.one_person)).sum
      = (filter_all [("1", [Image.mk "p" (some [[]])])]).2.1.length :=
  claim_C4 [("1", [Image.mk "p" (some [[]])])]
    (by
      intro c hc
      simp only [List.mem_singleton] at hc
      subst hc
      simp)
    (by simp)

/-- Claim C5: the search client returns exactly the ordered `"original"`
fields of the response's result objects, the empty list on an exception or
on a response without results (it never raises: it is total), and a page
with no results changes nothing in the collection state except the
API-call counter — in particular it downloads nothing. -/
theorem claim_C5 :
    (∀ e : String, search_images (.error e) = []) ∧
    (search_images (.ok ⟨none⟩) = []) ∧
    (∀ rs : List ImageResult,
      search_images (.ok ⟨some rs⟩) = rs.filterMap (fun r => r.original)) ∧
    (∀ (env : Env) (si : Nat) (st : CState) (q p : Nat),
      env.searchO q p = [] →
      processPage env si st q p = { st with api_calls := st.api_calls + 1 }) := by
  refine ⟨fun e => rfl, rfl, fun rs => rfl, ?_⟩
  intro env si st q p h
  simp [processPage, h]

/-- Witness for C5: in `emptySearchEnv` every page yields no results, and
processing a page only bumps the API-call counter. -/
theorem claim_C5_witness :
    processPage emptySearchEnv 0 (initState []) 0 0
      = { initState [] with api_calls := (initState []).api_calls + 1 } :=
  claim_C5.2.2.2 emptySearchEnv 0 (initState []) 0 0 rfl

/-- Claim C6: the downloader returns failure on any network error and on a
response whose content type is not an image, and in both of these cases no
file is created at the target path (the effect on the path is `none`). -/
theorem claim_C6 :
    (download_image .netError = (false, none)) ∧
    (∀ (ct : String) (w : List Content) (ok : Bool),
      isImageContentType ct = false →
      download_image (.response ct w ok) = (false, none)) := by
  refine ⟨rfl, ?_⟩
  intro ct w ok h
  simp [download_image, h]

/-- Witness for C6: `"text/html"` is not an image content type, and such a
response is rejected without creating a file. -/
theorem claim_C6_witness :
    isImageContentType "text/html" = false ∧
    download_image (.response "text/html" [[1]] true) = (false, none) :=
  ⟨by decide, claim_C6.2 "text/html" [[1]] true (by decide)⟩

/-- Claim C7: a category run performs at most `2 * numQueries` search
calls, the downloaded counter never exceeds the target, and as soon as the
counter has reached the target the query loop stops without further work. -/
theorem claim_C7 (env : Env) (numQueries : Nat) (fs0 : Fs) :
    (collect_images_for_type env numQueries fs0).api_calls ≤ 2 * numQueries ∧
    (collect_images_for_type env numQueries fs0).downloaded ≤ env.target ∧
    (∀ (si : Nat) (st : CState) (qs : List Nat),
      env.target ≤ st.downloaded → runQueries env si st qs = st) := by
  refine ⟨?_, ?_, ?_⟩
  · have h := runQueries_api_calls env (countImages fs0)
      (List.range numQueries) (initState fs0)
    simpa [collect_images_for_type, initState] using h
  · exact runQueries_downloaded_le_target env _ _ _ (by simp [initState])
  · intro si st qs h
    cases qs with
    | nil => rfl
    | cons q rest => simp [runQueries, h]

/-- Witness for C7: with target 0 the query loop stops immediately. -/
theorem claim_C7_witness :
    (collect_images_for_type boundEnv 1 []).api_calls ≤ 2 * 1 ∧
    runQueries boundEnv 0 (initState []) [0] = initState [] :=
  ⟨(claim_C7 boundEnv 1 []).1,
   (claim_C7 boundEnv 1 []).2.2 0 (initState []) [0] (by decide)⟩

/-- Counterexample to C8 as stated: in `dupUrlEnv` the single page's result
list contains the URL `"u"` twice; the seen-URL filter runs once per page,
before the download loop, so both occurrences survive it and the
downloader is invoked twice for the same URL. -/
theorem claim_C8_counterexample :
    (collect_images_for_type dupUrlEnv 1 []).dlLog.count "u" = 2 ∧
    ¬ ((collect_images_for_type dupUrlEnv 1 []).dlLog.count "u" ≤ 1) := by
  decide

/-- Claim C8 (amended): already-seen URLs are filtered out of each page's
result list before downloading, so provided each single search result list
contains no duplicate URLs, the downloader is invoked at most once per URL
during a category run — even when the same URL appears on several pages.
(A URL repeated inside one page's list is downloaded once per occurrence.) -/
theorem claim_C8 (env : Env) (numQueries : Nat) (fs0 : Fs)
    (hnd : ∀ q p, (env.searchO q p).Nodup) :
    ∀ u, (collect_images_for_type env numQueries fs0).dlLog.count u ≤ 1 := by
  have h := runQueries_UrlInv env (countImages fs0) hnd (List.range numQueries)
    (initState fs0) ⟨by simp [initState], by simp [initState]⟩
  exact fun u => List.nodup_iff_count_le_one.mp h.1 u

/-- Witness for C8 (amended): in `crossPageEnv` the same URL appears on two
different pages of duplicate-free result lists; it is downloaded at most
once. -/
theorem claim_C8_witness :
    (collect_images_for_type crossPageEnv 1 []).dlLog.count "u" ≤ 1 :=
  claim_C8 crossPageEnv 1 []
    (by
      intro q p
      by_cases h : q = 0 ∧ (p = 0 ∨ p = 1) <;> simp [crossPageEnv, h])
    "u"

/-- Claim C9: each image step preserves
`total_processed = one_person + zero_people + multiple_people + errors`,
and when a category finishes, its `by_type` entry satisfies
`total = one_person + zero_people + multiple_people + errors`. -/
theorem claim_C9 :
    (∀ (ht : String) (st : FoldState) (img : Image),
      statsInv st.g → statsInv (processImage ht st img).g) ∧
    (∀ (g : Stats) (ht : String) (imgs : List Image),
      ∃ ts : TypeStats,
        (ht, ts) ∈ (filter_hair_type_folder g ht imgs).1.by_type ∧
        ts.total = ts.one_person + ts.zero_people + ts.multiple_people + ts.errors) := by
  constructor
  · exact fun ht st img h => processImage_statsInv ht st img h
  · intro g ht imgs
    refine ⟨(imgs.foldl (processImage ht)
      { kept_count := 0,
        ts := { total := imgs.length, one_person := 0, zero_people := 0,
                multiple_people := 0, errors := 0 },
        g := g, copies := [] }).ts, ?_, ?_⟩
    · exact mem_setEntry _ ht _
    · obtain ⟨h1, h2⟩ := foldl_processImage_counts ht imgs
        { kept_count := 0,
          ts := { total := imgs.length, one_person := 0, zero_people := 0,
                  multiple_people := 0, errors := 0 },
          g := g, copies := [] }
      simp only at h1 h2
      omega

/-- Witness for C9: the invariant holds after processing an image on which
the detector raised, starting from the initial statistics. -/
theorem claim_C9_witness :
    statsInv (processImage "1"
      { kept_count := 0,
        ts := { total := 1, one_person := 0, zero_people := 0,
                multiple_people := 0, errors := 0 },
        g := initStats, copies := [] }
      (Image.mk "p" none)).g :=
  claim_C9.1 "1" _ _ (by decide)

/-- Claim C10: a response with an image content type whose body stream
fails partway through makes `download_image` return failure while the
partially written file remains at the target path — the failure branch does
not delete it, so the download is not atomic on error.  In `partialEnv` the
stream delivers chunks `[10]` and `[20]` and then fails: the downloader
reports failure, yet the target `2b_00000.jpg` holds the partial bytes and
nothing was counted. -/
theorem claim_C10 :
    download_image (partialEnv.downloadO "u") = (false, some [10, 20]) ∧
    fsGet (processUrl partialEnv 0 (initState []) "u").fs (fname "2b" 0)
      = some [10, 20] ∧
    (processUrl partialEnv 0 (initState []) "u").downloaded = 0 := by
  refine ⟨by decide, by decide, by decide⟩

end Pipeline
